import Mathlib

/-!
Verification of the multi-backend grammar-correction pipeline.

The JavaScript services are shallowly embedded over `JSStr := List Char`
(JS strings as character lists). JS numbers appearing in score arithmetic
are modelled as rationals (`ℚ`) with `Math.round` as `jsRound`; note that
JS division by zero (yielding `Infinity`/`NaN`) is avoided by the same
non-empty-input guards the services enforce, and theorems carry those
guards as hypotheses where relevant. Network calls are abstracted by
oracles giving each upstream attempt's outcome; everything that happens
after a response is received is embedded from the source.
-/

/-- JS strings, modelled as lists of characters. -/
abbrev JSStr := List Char

/-- The whitespace class used by the services' regexes (`\s` on the ASCII
range that can occur here). -/
def isWsChar (c : Char) : Bool :=
  c = ' ' || c = '\t' || c = '\n' || c = '\r' || c = '\x0b' || c = '\x0c'

/-- JS `\w` word characters (ASCII letters, digits, underscore), used for
the `\b` word-boundary in the rule-table regexes. -/
def isWordChar (c : Char) : Bool :=
  c.isAlpha || c.isDigit || c = '_'

/-- JS `String.prototype.toLowerCase` on the ASCII range. -/
def jsToLower (s : JSStr) : JSStr := s.map Char.toLower

/-- JS `String.prototype.trim`. -/
def jsTrim (s : JSStr) : JSStr :=
  ((s.dropWhile isWsChar).reverse.dropWhile isWsChar).reverse

/-- JS `s.substring(a, b)` for `a ≤ b` (the only way the services call it):
the characters at indices `[a, b)`, clamped to the string. -/
def jsSubstring (s : JSStr) (a b : Nat) : JSStr := (s.take b).drop a

/-- JS `Math.round` on a rational: round half toward positive infinity. -/
def jsRound (q : ℚ) : ℤ := Int.floor (q + 1/2)

/-- JS `[...new Set(l)]`: deduplicate keeping first occurrences in order. -/
def jsSetList (l : List JSStr) : List JSStr :=
  l.foldl (fun acc x => if x ∈ acc then acc else acc ++ [x]) []

/-- Group a character list into maximal runs, each tagged with whether it is
a whitespace run.  Helper for the JS `split` embeddings. -/
def groupRuns : List Char → List (Bool × List Char)
  | [] => []
  | c :: rest =>
    match groupRuns rest with
    | [] => [(isWsChar c, [c])]
    | (b, g) :: gs =>
      if b = isWsChar c then (b, c :: g) :: gs
      else (isWsChar c, [c]) :: (b, g) :: gs

/-- Turn the run list into the result of JS `s.split(/(\s+)/)` (separators
captured, so pieces and whitespace runs alternate, with empty pieces at the
boundaries).  The flag records whether a separator run is expected next. -/
def altPieces : Bool → List (Bool × List Char) → List JSStr
  | false, [] => [[]]
  | true, [] => []
  | false, (true, g) :: gs => [] :: g :: altPieces false gs
  | false, (false, g) :: gs => g :: altPieces true gs
  | true, (true, g) :: gs => g :: altPieces false gs
  | true, (false, g) :: gs => g :: altPieces true gs

/-- JS `s.split(/(\s+)/)`: tokens with the whitespace separators kept. -/
def splitWsKeep (s : JSStr) : List JSStr := altPieces false (groupRuns s)

/-- Turn the run list into the result of JS `s.split(/\s+/)` (separators
dropped, boundary empty pieces kept). -/
def altTokens : Bool → List (Bool × List Char) → List JSStr
  | false, [] => [[]]
  | true, [] => []
  | false, (true, _) :: gs => [] :: altTokens false gs
  | false, (false, g) :: gs => g :: altTokens true gs
  | true, (true, _) :: gs => altTokens false gs
  | true, (false, g) :: gs => g :: altTokens true gs

/-- JS `s.split(/\s+/)`. -/
def splitWs (s : JSStr) : List JSStr := altTokens false (groupRuns s)

/-- JS `s.replace(/\s+/g, ' ')`: collapse every whitespace run to one space. -/
def collapseWs (s : JSStr) : JSStr :=
  ((groupRuns s).map (fun bg => if bg.1 then [' '] else bg.2)).flatten

/-- State machine for JS `s.replace(/\.\s+[a-z]/g, m => ...toUpperCase())`
(capitalize the first lowercase letter after a period plus whitespace).
State 0: scanning; 1: just saw a period; 2: saw a period then whitespace. -/
def capAux : Nat → JSStr → JSStr
  | _, [] => []
  | 0, c :: r => c :: capAux (if c = '.' then 1 else 0) r
  | 1, c :: r =>
    if isWsChar c then c :: capAux 2 r
    else if c = '.' then c :: capAux 1 r
    else c :: capAux 0 r
  | _ + 2, c :: r =>
    if isWsChar c then c :: capAux 2 r
    else if c.isLower then c.toUpper :: capAux 0 r
    else if c = '.' then c :: capAux 1 r
    else c :: capAux 0 r

/-- Capitalize letters after sentence-ending periods, as in the services'
`replace(/\.\s+[a-z]/g, ...)` passes. -/
def capAfterPeriods (s : JSStr) : JSStr := capAux 0 s

/-- Does the (case-insensitive) literal pattern match at the head of `s`? -/
def matchAt (pat s : JSStr) : Bool :=
  decide (pat.length ≤ s.length) &&
    decide ((s.take pat.length).map Char.toLower = pat.map Char.toLower)

/-- The `\b` boundary after a pattern whose last character is a word
character: the next character of `s` (if any) is not a word character. -/
def boundaryAfter (pat s : JSStr) : Bool :=
  match s.drop pat.length with
  | [] => true
  | d :: _ => !(isWordChar d)

/-- Scanner for `replace(new RegExp('\\b' + pat + '\\b', 'gi'), rep)`.
`prev` records whether the previous original character was a word
character (for the leading `\b`); `skip` counts matched characters still
to be consumed after a replacement was emitted. -/
def wrAux (pat rep : JSStr) : JSStr → Bool → Nat → JSStr
  | [], _, _ => []
  | c :: rest, _, Nat.succ n => wrAux pat rep rest (isWordChar c) n
  | c :: rest, prev, 0 =>
    if !prev && matchAt pat (c :: rest) && boundaryAfter pat (c :: rest)
        && decide (0 < pat.length) then
      rep ++ wrAux pat rep rest (isWordChar c) (pat.length - 1)
    else c :: wrAux pat rep rest (isWordChar c) 0

/-- JS `s.replace(new RegExp('\\b' + pat + '\\b', 'gi'), rep)` for the
literal word/phrase patterns of the rule tables. -/
def wordReplace (pat rep s : JSStr) : JSStr := wrAux pat rep s false 0

/-- Scanner for `s.match(new RegExp('\\b' + pat + '\\b', 'gi')) !== null`. -/
def hwAux (pat : JSStr) : JSStr → Bool → Bool
  | [], _ => false
  | c :: rest, prev =>
    (!prev && matchAt pat (c :: rest) && boundaryAfter pat (c :: rest)
      && decide (0 < pat.length))
    || hwAux pat rest (isWordChar c)

/-- Does `s` contain a whole-word (case-insensitive) occurrence of `pat`? -/
def hasWordMatch (pat s : JSStr) : Bool := hwAux pat s false

/-- Is `p` a prefix of `s`?  Helper for `jsIncludes`. -/
def startsWithList (p s : JSStr) : Bool := decide (s.take p.length = p)

/-- JS `hay.includes(needle)`: does `needle` occur contiguously in `hay`? -/
def jsIncludes (needle : JSStr) : JSStr → Bool
  | [] => decide (needle = [])
  | c :: rest => startsWithList needle (c :: rest) || jsIncludes needle rest

/-- `calculateSimilarity` shared verbatim by `UniversalGrammarService` and
`AdvancedHuggingFaceGrammarService`: lower-case and whitespace-split both
texts, count the words of the first list that occur in the second
(duplicates counted), and divide by the number of distinct words overall. -/
def calculateSimilarity (t1 t2 : JSStr) : ℚ :=
  let w1 := splitWs (jsToLower t1)
  let w2 := splitWs (jsToLower t2)
  ((w1.filter (fun w => w ∈ w2)).length : ℚ) / (((w1 ++ w2).dedup).length : ℚ)

namespace SmartFree

/-- One correction record as produced by `SmartFreeGrammarService`'s
response processors and basic rule table (fields `original`, `correction`,
`message`, `category`; LanguageTool additionally sets `ruleId`). -/
structure SFCorrection where
  original : JSStr
  correction : JSStr
  message : JSStr
  category : JSStr
  ruleId : Option JSStr
deriving DecidableEq, Repr

/-- The `statistics` object of a `SmartFreeGrammarService` result. -/
structure SFStatistics where
  totalMatches : Nat
  appliedCorrections : Nat
  originalLength : Nat
  correctedLength : Nat
  processingTime : Nat
deriving DecidableEq, Repr

/-- A `SmartFreeGrammarService` correction result.  `serviceUsed` is
`none` until the orchestrator loop adds it on success (the raw processor
results do not carry it); the wall-clock `timestamp` field is omitted. -/
structure SFResult where
  originalText : JSStr
  correctedText : JSStr
  corrections : List SFCorrection
  language : JSStr × JSStr
  statistics : SFStatistics
  serviceUsed : Option JSStr
deriving DecidableEq, Repr

/-- The `basicCorrections` rule table of `useBasicCorrection`, in the
insertion order of the object literal. -/
def basicRules : List (JSStr × JSStr) :=
  [("teh".data, "the".data), ("adn".data, "and".data), ("ot".data, "to".data),
   ("fo".data, "of".data), ("recieve".data, "receive".data),
   ("seperate".data, "separate".data), ("occurance".data, "occurrence".data),
   ("definately".data, "definitely".data), ("untill".data, "until".data),
   ("begining".data, "beginning".data), ("writting".data, "writing".data),
   ("thier".data, "their".data), ("freind".data, "friend".data),
   ("wich".data, "which".data), ("whcih".data, "which".data),
   ("alot".data, "a lot".data), ("could of".data, "could have".data),
   ("would of".data, "would have".data), ("should of".data, "should have".data),
   ("its a".data, "it\x27s a".data), ("youre".data, "you\x27re".data),
   ("dont".data, "don\x27t".data), ("cant".data, "can\x27t".data),
   ("hte".data, "the".data), ("nad".data, "and".data), ("si".data, "is".data),
   ("ti".data, "it".data)]

/-- The correction record pushed by `useBasicCorrection` for one matched
rule (grammar if the pattern is a phrase with a space, else spelling). -/
def mkBasicCorr (wrong right : JSStr) : SFCorrection :=
  { original := wrong, correction := right,
    message := "Common ".data
      ++ (if ' ' ∈ wrong then "grammar".data else "spelling".data)
      ++ " mistake".data,
    category := if ' ' ∈ wrong then "Grammar".data else "Spelling".data,
    ruleId := none }

/-- The rule-application loop of `useBasicCorrection`: fold the rule table
over the working text, replacing whole-word case-insensitive occurrences
and recording one correction per matched rule. -/
def applyBasicRules (t : JSStr) : JSStr × List SFCorrection :=
  basicRules.foldl
    (fun acc rule =>
      if hasWordMatch rule.1 acc.1 then
        (wordReplace rule.1 rule.2 acc.1, acc.2 ++ [mkBasicCorr rule.1 rule.2])
      else acc)
    (t, [])

/-- The correction pushed for the multiple-spaces fix. -/
def spacingCorr : SFCorrection :=
  { original := "multiple spaces".data, correction := "single space".data,
    message := "Fixed spacing".data, category := "Formatting".data,
    ruleId := none }

/-- `SmartFreeGrammarService.useBasicCorrection`: the offline rule-table
service — apply the rule table, collapse whitespace when a double space is
present (recording a formatting correction), then capitalize after
periods (no correction recorded for that step). -/
def useBasicCorrection (t : JSStr) : SFResult :=
  let step1 := applyBasicRules t
  let step2 :=
    if jsIncludes (" ".data ++ " ".data) step1.1 then
      (collapseWs step1.1, step1.2 ++ [spacingCorr])
    else step1
  let corrected := capAfterPeriods step2.1
  { originalText := t, correctedText := corrected, corrections := step2.2,
    language := ("English".data, "en".data),
    statistics :=
      { totalMatches := step2.2.length, appliedCorrections := step2.2.length,
        originalLength := t.length, correctedLength := corrected.length,
        processingTime := 150 },
    serviceUsed := none }

/-- One structured edit of a Sapling response (`start`/`end`/`replacement`
plus the optional error-type strings used for message and category). -/
structure SEdit where
  start : Nat
  stop : Nat
  replacement : JSStr
  generalErrorType : Option JSStr
  errorType : Option JSStr
deriving DecidableEq, Repr

/-- Stable insertion of an edit into a list sorted by descending `start`,
matching JS `edits.sort((a, b) => b.start - a.start)` (stable, and the
comparator looks only at `start`). -/
def insertDesc (e : SEdit) : List SEdit → List SEdit
  | [] => [e]
  | f :: fs => if f.start ≤ e.start then e :: f :: fs else f :: insertDesc e fs

/-- JS stable sort by descending `start`. -/
def sortDesc : List SEdit → List SEdit
  | [] => []
  | e :: es => insertDesc e (sortDesc es)

/-- The correction record built for one applied Sapling edit: the original
span is taken from the original text at the edit's offsets. -/
def corrOf (originalText : JSStr) (e : SEdit) : SFCorrection :=
  { original := jsSubstring originalText e.start e.stop,
    correction := e.replacement,
    message := e.generalErrorType.getD "Grammar/Spelling error".data,
    category := e.errorType.getD "Grammar".data,
    ruleId := none }

/-- The splicing loop of `processSaplingResponse`: walk the (sorted)
edits, skip those with an empty (falsy) replacement, splice the rest into
the working text and push a correction per applied edit. -/
def spApply (originalText : JSStr) : JSStr → List SEdit → JSStr × List SFCorrection
  | cur, [] => (cur, [])
  | cur, e :: es =>
    if e.replacement ≠ [] then
      let cur2 := cur.take e.start ++ e.replacement ++ cur.drop e.stop
      let r := spApply originalText cur2 es
      (r.1, corrOf originalText e :: r.2)
    else spApply originalText cur es

/-- `SmartFreeGrammarService.processSaplingResponse`: sort edits by
descending start, apply them in that order, and return the applied
corrections reversed. -/
def processSaplingResponse (originalText : JSStr) (edits : List SEdit) : SFResult :=
  let r := spApply originalText originalText (sortDesc edits)
  { originalText := originalText, correctedText := r.1,
    corrections := r.2.reverse,
    language := ("English".data, "en".data),
    statistics :=
      { totalMatches := edits.length, appliedCorrections := r.2.length,
        originalLength := originalText.length, correctedLength := r.1.length,
        processingTime := 600 },
    serviceUsed := none }

/-- Stable insertion for the specification's ordering: descending offset
with ties broken by longer length first. -/
def specInsertDesc (e : SEdit) : List SEdit → List SEdit
  | [] => [e]
  | f :: fs =>
    if f.start < e.start ∨ (f.start = e.start ∧ f.stop - f.start ≤ e.stop - e.start) then
      e :: f :: fs
    else f :: specInsertDesc e fs

/-- Sort for the specification's ordering (descending offset, longer
length first on ties). -/
def specSortDesc : List SEdit → List SEdit
  | [] => []
  | e :: es => specInsertDesc e (specSortDesc es)

/-- Modelled from the spec: the structured-edit adapter as §4.2(a) and §3
describe it — sort the received triples by descending offset breaking
ties by longer length first, apply them in that order, and return the
edits sequence in that same (application) order, without reversing. -/
def specProcessSaplingResponse (originalText : JSStr) (edits : List SEdit) : SFResult :=
  let r := spApply originalText originalText (specSortDesc edits)
  { originalText := originalText, correctedText := r.1,
    corrections := r.2,
    language := ("English".data, "en".data),
    statistics :=
      { totalMatches := edits.length, appliedCorrections := r.2.length,
        originalLength := originalText.length, correctedLength := r.1.length,
        processingTime := 600 },
    serviceUsed := none }

/-- The application-order edit list of `processSaplingResponse`: the edits
sorted by descending start, restricted to those actually applied
(non-empty replacement). -/
def appOrder (edits : List SEdit) : List SEdit :=
  (sortDesc edits).filter (fun e => e.replacement ≠ [])

/-- The remote correction sources of `SmartFreeGrammarService`, plus the
always-available offline rule table. -/
inductive ServiceKind
  | sapling
  | textGears
  | languageTool
  | basic
deriving DecidableEq, Repr

/-- Which optional API keys are configured (fixed at construction). -/
structure Config where
  hasSapling : Bool
  hasTextGears : Bool
deriving DecidableEq, Repr

/-- The `services` candidate list of `correctText` paired with the names
produced by `getServiceName` (both are built from the same key presence
checks, so they align by index).  A remote attempt's outcome comes from
the `oracle` (`none` models a thrown error: unavailable upstream, auth
failure, rate limit or timeout); the basic service is a total local
computation and always succeeds. -/
def entries (cfg : Config) (oracle : ServiceKind → Option SFResult) (t : JSStr) :
    List (JSStr × Option SFResult) :=
  (if cfg.hasSapling then [("Sapling AI".data, oracle ServiceKind.sapling)] else [])
  ++ (if cfg.hasTextGears then [("TextGears".data, oracle ServiceKind.textGears)] else [])
  ++ [("LanguageTool Free".data, oracle ServiceKind.languageTool),
      ("Basic Correction".data, some (useBasicCorrection t))]

/-- The fallback loop of `SmartFreeGrammarService.correctText`: on
success, return the result with `serviceUsed` set; on failure of the last
candidate, return the raw basic correction; otherwise continue. -/
def sfLoop (t : JSStr) : List (JSStr × Option SFResult) → SFResult
  | [] => useBasicCorrection t
  | (name, res) :: rest =>
    match res with
    | some r => { r with serviceUsed := some name }
    | none => if rest = [] then useBasicCorrection t else sfLoop t rest

/-- `SmartFreeGrammarService.correctText`: validate, then run the
candidate loop (the `timestamp` added on success is omitted). -/
def correctText (cfg : Config) (oracle : ServiceKind → Option SFResult)
    (t : JSStr) : Except JSStr SFResult :=
  if t = [] then Except.error "Invalid text input".data
  else if 8000 < t.length then
    Except.error "Text too long. Maximum 8,000 characters.".data
  else Except.ok (sfLoop t (entries cfg oracle t))

end SmartFree

/-- The `linguisticCoverage` breakdown shared by both AI services. -/
structure Coverage where
  verbTenses : Nat
  pronouns : Nat
  articles : Nat
  prepositions : Nat
  spelling : Nat
  grammar : Nat
  collocations : Nat
  idioms : Nat
  style : Nat
deriving DecidableEq, Repr

namespace Universal

/-- One correction record of `UniversalGrammarService`.  `position` is
`some i` only for the word-by-word comparisons of `analyzeCorrections`
(where `i` is the token index); the summary markers and pattern fixes
carry no position. -/
structure UCorrection where
  original : JSStr
  correction : JSStr
  category : JSStr
  message : JSStr
  confidence : ℚ
  position : Option Nat
deriving DecidableEq, Repr

/-- The message attached by `analyzeCorrections` to a token replacement. -/
def acMessage (o c : JSStr) : JSStr :=
  "Improved: \"".data ++ o ++ "\" → \"".data ++ c ++ "\"".data

/-- The word-by-word loop of `analyzeCorrections`: compare the two token
lists at equal indices (up to the shorter length), recording a Grammar
correction whenever the tokens differ and neither trims to empty; the
recorded `position` is the token index. -/
def acAux : List JSStr → List JSStr → Nat → List UCorrection
  | o :: os, c :: cs, i =>
    (if o ≠ c ∧ jsTrim o ≠ [] ∧ jsTrim c ≠ [] then
      [{ original := o, correction := c, category := "Grammar".data,
         message := acMessage o c, confidence := 75, position := some i }]
     else [])
    ++ acAux os cs (i + 1)
  | _, _, _ => []

/-- The marker pushed when the corrected text has more tokens. -/
def missingWordsCorr : UCorrection :=
  { original := "missing words".data, correction := "added words".data,
    category := "Grammar".data,
    message := "Added necessary words for clarity".data,
    confidence := 70, position := none }

/-- The marker pushed when the corrected text has fewer tokens. -/
def extraWordsCorr : UCorrection :=
  { original := "extra words".data, correction := "removed words".data,
    category := "Style".data,
    message := "Removed unnecessary words".data,
    confidence := 70, position := none }

/-- `UniversalGrammarService.analyzeCorrections`: lower-case both texts,
split keeping whitespace tokens, compare positionally, then append one
marker when the token counts differ. -/
def analyzeCorrections (o c : JSStr) : List UCorrection :=
  let ow := splitWsKeep (jsToLower o)
  let cw := splitWsKeep (jsToLower c)
  acAux ow cw 0
  ++ (if ow.length < cw.length then [missingWordsCorr]
      else if cw.length < ow.length then [extraWordsCorr] else [])

/-- `UniversalGrammarService.calculateQualityScore`. -/
def calculateQualityScore (o c : JSStr) : ℤ :=
  if o = c then 100
  else
    let ld : ℚ := abs ((c.length : ℚ) - (o.length : ℚ))
    max 60 (min 100
      (jsRound (85 - (ld / (o.length : ℚ)) * 10 + calculateSimilarity o c * 15)))

/-- One step of `analyzeLinguisticCoverage`'s category bucketing (the
checks are substring tests on the lower-cased category, in source order). -/
def covStep (cov : Coverage) (x : UCorrection) : Coverage :=
  let cat := jsToLower x.category
  if jsIncludes "tense".data cat then { cov with verbTenses := cov.verbTenses + 1 }
  else if jsIncludes "pronoun".data cat then { cov with pronouns := cov.pronouns + 1 }
  else if jsIncludes "article".data cat then { cov with articles := cov.articles + 1 }
  else if jsIncludes "preposition".data cat then { cov with prepositions := cov.prepositions + 1 }
  else if jsIncludes "spelling".data cat then { cov with spelling := cov.spelling + 1 }
  else if jsIncludes "style".data cat then { cov with style := cov.style + 1 }
  else { cov with grammar := cov.grammar + 1 }

/-- `UniversalGrammarService.analyzeLinguisticCoverage`. -/
def analyzeLinguisticCoverage (l : List UCorrection) : Coverage :=
  l.foldl covStep ⟨0, 0, 0, 0, 0, 0, 0, 0, 0⟩

/-- Sum of the corrections' confidence values (the `reduce` in
`buildResult`). -/
def confSum (l : List UCorrection) : ℚ := (l.map (fun x => x.confidence)).sum

/-- The `analysis` object of a Universal result. -/
structure UAnalysis where
  errorCategories : List JSStr
  confidenceScore : ℤ
  qualityScore : ℤ
  linguisticCoverage : Coverage
deriving DecidableEq, Repr

/-- The `statistics` object of a Universal result. -/
structure UStatistics where
  totalErrors : Nat
  correctedErrors : Nat
  confidenceScore : ℤ
  processingTime : Nat
  originalLength : Nat
  correctedLength : Nat
deriving DecidableEq, Repr

/-- A `UniversalGrammarService` correction result (the wall-clock
`timestamp` field is omitted). -/
structure UResult where
  originalText : JSStr
  correctedText : JSStr
  corrections : List UCorrection
  analysis : UAnalysis
  statistics : UStatistics
  serviceUsed : JSStr
  models : List JSStr
deriving DecidableEq, Repr

/-- `UniversalGrammarService.buildResult`: the confidence score is the
rounded mean of the corrections' confidences, or 100 when there are none;
the fixed `processingTime: 1000` is the source's placeholder. -/
def buildResult (original corrected : JSStr) (corrections : List UCorrection)
    (svc : JSStr) : UResult :=
  let conf : ℤ :=
    if corrections.length ≠ 0 then
      jsRound (confSum corrections / (corrections.length : ℚ))
    else 100
  { originalText := original, correctedText := corrected,
    corrections := corrections,
    analysis :=
      { errorCategories := jsSetList (corrections.map (fun x => x.category)),
        confidenceScore := conf,
        qualityScore := calculateQualityScore original corrected,
        linguisticCoverage := analyzeLinguisticCoverage corrections },
    statistics :=
      { totalErrors := corrections.length, correctedErrors := corrections.length,
        confidenceScore := conf, processingTime := 1000,
        originalLength := original.length, correctedLength := corrected.length },
    serviceUsed := svc, models := [svc] }

/-- `UniversalGrammarService.isValidCorrection`: the degeneracy filter on
an AI candidate (empty, shorter than 3 characters, identical to the
input, echoing the input at more than twice its length, or with a length
difference exceeding the input length, are all rejected). -/
def isValidCorrection (original corrected : JSStr) : Bool :=
  if corrected = [] then false
  else if corrected.length < 3 then false
  else if corrected = original then false
  else if jsIncludes original corrected = true
          ∧ 2 * original.length < corrected.length then false
  else if original.length < ((corrected.length : ℤ) - (original.length : ℤ)).natAbs
    then false
  else true

/-- The model-and-prompt loop of `tryMultipleAIApproaches`, with the
upstream generations abstracted as the list of already-extracted
candidate corrected strings, each paired with the `serviceUsed` name the
loop would report for it.  A candidate terminates the loop only if it
passes `isValidCorrection` and `analyzeCorrections` finds at least one
correction; otherwise the loop continues, and after the last candidate
the original text is returned with no corrections. -/
def tryCandidates (text : JSStr) : List (JSStr × JSStr) → UResult
  | [] => buildResult text text [] "AI Analysis (No errors found)".data
  | (name, cand) :: rest =>
    if isValidCorrection text cand = true ∧ analyzeCorrections text cand ≠ [] then
      buildResult text cand (analyzeCorrections text cand) name
    else tryCandidates text rest

/-- Upstream outcomes for one `UniversalGrammarService.queryModel` call. -/
inductive UpResp2
  | success (d : JSStr)
  | http503
  | http429
  | http401
  | otherError (e : JSStr)
deriving DecidableEq, Repr

/-- `UniversalGrammarService.queryModel`: given the outcomes of the first
call and (if needed) the single retry, either return data, or fail after
at most two upstream calls — on a 503 it waits once, retries exactly
once, and gives up if the retry fails for any reason. -/
def uQueryModel (r1 r2 : UpResp2) : Except JSStr JSStr :=
  match r1 with
  | UpResp2.success d => Except.ok d
  | UpResp2.http503 =>
    match r2 with
    | UpResp2.success d => Except.ok d
    | _ => Except.error "Model still loading after retry".data
  | UpResp2.http429 => Except.error "Rate limit exceeded".data
  | UpResp2.http401 => Except.error "Invalid API key".data
  | UpResp2.otherError e => Except.error e

/-- The number of upstream calls `uQueryModel` makes. -/
def uQueryCalls (r1 : UpResp2) : Nat :=
  match r1 with
  | UpResp2.http503 => 2
  | _ => 1

end Universal

namespace AdvancedHF

/-- One change record of
`AdvancedHuggingFaceGrammarService.findTextChanges`: the differing
original/corrected tokens, the accumulated character offset of the
original token in the original text, and the fixed `0.8` confidence. -/
structure TextChange where
  original : JSStr
  corrected : JSStr
  position : Nat
  confidence : ℚ
deriving DecidableEq, Repr

/-- The lockstep walk of `findTextChanges`: compare tokens at equal
indices while both lists last, accumulating the original tokens' lengths
as the character position. -/
def ftcAux : List JSStr → List JSStr → Nat → List TextChange
  | o :: os, c :: cs, pos =>
    (if o ≠ c then [{ original := o, corrected := c, position := pos, confidence := 4/5 }]
     else [])
    ++ ftcAux os cs (pos + o.length)
  | _, _, _ => []

/-- `AdvancedHuggingFaceGrammarService.findTextChanges`: split both texts
keeping whitespace tokens and walk them in lockstep. -/
def findTextChanges (o c : JSStr) : List TextChange :=
  ftcAux (splitWsKeep o) (splitWsKeep c) 0

/-- One error object of `classifyErrors`. -/
structure HFError where
  id : Nat
  original : JSStr
  correction : JSStr
  position : Nat
  category : JSStr
  severity : JSStr
  confidence : ℚ
deriving DecidableEq, Repr

/-- The catch branch of `classifyErrors` (taken whenever the upstream
classification query fails): build one `Grammar`/`medium`/`0.7` error per
text change, and the category set is `{Grammar}` iff any change exists. -/
def classifyErrorsFallback (o c : JSStr) : List HFError × List JSStr :=
  let changes := findTextChanges o c
  ((changes.enum).map (fun p =>
      { id := p.1, original := p.2.original, correction := p.2.corrected,
        position := p.2.position, category := "Grammar".data,
        severity := "medium".data, confidence := 7/10 }),
   if changes = [] then [] else ["Grammar".data])

/-- `AdvancedHuggingFaceGrammarService.getLinguisticCoverage`: exact
category counts over the error list. -/
def getLinguisticCoverage (errors : List HFError) : Coverage :=
  { verbTenses := (errors.filter (fun e => e.category = "Tense".data)).length,
    pronouns := (errors.filter (fun e => e.category = "Pronoun".data)).length,
    articles := (errors.filter (fun e => e.category = "Article".data)).length,
    prepositions := (errors.filter (fun e => e.category = "Preposition".data)).length,
    spelling := (errors.filter (fun e => e.category = "Spelling".data)).length,
    grammar := (errors.filter (fun e => e.category = "Grammar".data)).length,
    collocations := (errors.filter (fun e => e.category = "Collocation".data)).length,
    idioms := (errors.filter (fun e => e.category = "Idiom".data)).length,
    style := (errors.filter (fun e => e.category = "Style".data)).length }

/-- The similarity-based fallback branch of `calculateConfidence` (taken
whenever the upstream confidence query fails): `0.7 × similarity +
0.3 × lengthRatio`, scaled to 100 and rounded — with no clamping. -/
def calculateConfidenceFallback (o c : JSStr) : ℤ :=
  let sim := calculateSimilarity o c
  let lengthFrac : ℚ :=
    min ((c.length : ℚ) / (o.length : ℚ)) ((o.length : ℚ) / (c.length : ℚ))
  jsRound ((sim * (7/10) + lengthFrac * (3/10)) * 100)

/-- `AdvancedHuggingFaceGrammarService.calculateQualityScore`: weighted
sum of length consistency, word-count consistency (counts from
`split(' ')` on a literal space) and `calculateSimilarity`, rounded and
then clamped to [0, 100] — the individual terms are not clamped. -/
def calculateQualityScore (o c : JSStr) : ℤ :=
  let lc : ℚ := 1 - abs ((c.length : ℚ) - (o.length : ℚ)) / (o.length : ℚ)
  let wc : ℚ := 1 -
    abs (((c.splitOn ' ').length : ℚ) - ((o.splitOn ' ').length : ℚ))
      / ((o.splitOn ' ').length : ℚ)
  let sim := calculateSimilarity o c
  max 0 (min 100 (jsRound ((lc * (3/10) + wc * (3/10) + sim * (4/10)) * 100)))

/-- Modelled from the spec: the quality-score formula as §4.4 words it —
`round(100 × (0.3 × lengthConsistency + 0.3 × wordCountConsistency +
0.4 × tokenSimilarity))` with each consistency term `1 − |Δ|/originalMeasure`
clamped to [0, 1], and `tokenSimilarity` the Jaccard similarity of the
lower-cased whitespace-tokenized word sets. -/
def specQualityScore (o c : JSStr) : ℤ :=
  let clamp01 : ℚ → ℚ := fun q => max 0 (min 1 q)
  let ow := splitWs (jsToLower o)
  let cw := splitWs (jsToLower c)
  let lc := clamp01 (1 - abs ((c.length : ℚ) - (o.length : ℚ)) / (o.length : ℚ))
  let wc := clamp01 (1 - abs ((cw.length : ℚ) - (ow.length : ℚ)) / (ow.length : ℚ))
  let w1 := ow.dedup
  let w2 := cw.dedup
  let jac : ℚ :=
    ((w1.filter (fun w => w ∈ w2)).length : ℚ) / (((w1 ++ w2).dedup).length : ℚ)
  jsRound (100 * ((3/10) * lc + (3/10) * wc + (4/10) * jac))

/-- A formatted correction of the Advanced service (`formatCorrections`
output shape). -/
structure FormattedCorrection where
  original : JSStr
  correction : JSStr
  message : JSStr
  category : JSStr
  severity : JSStr
  confidence : ℤ
  position : Nat
  ruleId : JSStr
deriving DecidableEq, Repr

/-- The `analysis` object of an Advanced result. -/
structure HFAnalysis where
  errorCategories : List JSStr
  confidenceScore : ℤ
  linguisticCoverage : Coverage
  qualityScore : ℤ
deriving DecidableEq, Repr

/-- The `statistics` object of an Advanced result. -/
structure HFStatistics where
  totalErrors : Nat
  correctedErrors : Nat
  confidenceScore : ℤ
  processingTime : Nat
  originalLength : Nat
  correctedLength : Nat
deriving DecidableEq, Repr

/-- An `AdvancedHuggingFaceGrammarService` correction result (the
wall-clock `timestamp` field is omitted). -/
structure HFResult where
  originalText : JSStr
  correctedText : JSStr
  corrections : List FormattedCorrection
  analysis : HFAnalysis
  statistics : HFStatistics
  serviceUsed : JSStr
  models : List JSStr
deriving DecidableEq, Repr

/-- The result `AdvancedHuggingFaceGrammarService.correctText` builds
when every upstream model query fails: `performComprehensiveCorrection`
keeps the input as the best result with no model corrections,
`classifyErrors` and `calculateConfidence` take their catch branches,
`generateExplanations` sees no errors, and `formatCorrections` of the
empty error list is empty.  The measured `processingTime` is modelled
as 0. -/
def allFailResult (t : JSStr) : HFResult :=
  let classified := classifyErrorsFallback t t
  let conf := calculateConfidenceFallback t t
  { originalText := t, correctedText := t, corrections := [],
    analysis :=
      { errorCategories := classified.2, confidenceScore := conf,
        linguisticCoverage := getLinguisticCoverage classified.1,
        qualityScore := calculateQualityScore t t },
    statistics :=
      { totalErrors := classified.1.length, correctedErrors := 0,
        confidenceScore := conf, processingTime := 0,
        originalLength := t.length, correctedLength := t.length },
    serviceUsed := "Hugging Face Advanced AI".data, models := [] }

/-- `AdvancedHuggingFaceGrammarService.correctText` specialized to
executions in which every upstream model query fails (the scenario of the
claims): only the input validation can reject, every later failure is
caught internally. -/
def correctTextAllFail (t : JSStr) : Except JSStr HFResult :=
  if t = [] then Except.error "Invalid text input".data
  else if jsTrim t = [] then Except.error "Text cannot be empty".data
  else if 15000 < t.length then
    Except.error "Text too long. Maximum 15,000 characters for comprehensive analysis.".data
  else Except.ok (allFailResult t)

/-- Upstream outcomes for one `AdvancedHuggingFaceGrammarService.queryModel`
attempt. -/
inductive UpResp
  | success (d : JSStr)
  | http503
  | otherFailure
deriving DecidableEq, Repr

/-- `AdvancedHuggingFaceGrammarService.queryModel` against the sequence of
upstream outcomes `resp 0, resp 1, ...`: on a 503 it waits and calls
itself again with no retry bound, so it is given fuel (one unit per
upstream call); `none` means the fuel ran out with the call still
retrying. -/
def hfQueryModel (resp : Nat → UpResp) : Nat → Nat → Option (Except JSStr JSStr)
  | 0, _ => none
  | fuel + 1, k =>
    match resp k with
    | UpResp.success d => some (Except.ok d)
    | UpResp.http503 => hfQueryModel resp fuel (k + 1)
    | UpResp.otherFailure => some (Except.error "Model query failed".data)

/-- The upstream that reports "model warming up" (HTTP 503) forever. -/
def always503 : Nat → UpResp := fun _ => UpResp.http503

end AdvancedHF

namespace Controller

/-- The `text` field of a request body as the controller's validation
distinguishes it: absent (or any falsy value, including the empty
string), present but not a string, or a string. -/
inductive ReqBody
  | missing
  | notString
  | str (t : JSStr)

/-- The controller's response, reduced to what the claims observe. -/
inductive Outcome
  | badRequest (e : JSStr)
  | unauthorized
  | rateLimited
  | serverError
  | ok (r : AdvancedHF.HFResult)
deriving DecidableEq

/-- The HTTP status code of an outcome (`next(error)` falls through to the
error-handler middleware's default 500). -/
def statusOf : Outcome → Nat
  | Outcome.badRequest _ => 400
  | Outcome.unauthorized => 401
  | Outcome.rateLimited => 429
  | Outcome.serverError => 500
  | Outcome.ok _ => 200

/-- `ProductionGrammarController.correctText`: validate (missing/falsy
text, non-string text, text empty after trimming, text longer than the
configured maximum), then invoke the grammar service and map a thrown
error by its message.  The second component records whether the service
was invoked. -/
def run (maxLen : Nat) (svc : JSStr → Except JSStr AdvancedHF.HFResult) :
    ReqBody → Outcome × Bool
  | ReqBody.missing => (Outcome.badRequest "Missing text field".data, false)
  | ReqBody.notString => (Outcome.badRequest "Invalid text format".data, false)
  | ReqBody.str t =>
    if t = [] then (Outcome.badRequest "Missing text field".data, false)
    else if jsTrim t = [] then (Outcome.badRequest "Empty text".data, false)
    else if maxLen < t.length then (Outcome.badRequest "Text too long".data, false)
    else
      match svc t with
      | Except.ok r => (Outcome.ok r, true)
      | Except.error e =>
        if jsIncludes "HUGGINGFACE_API_KEY".data e then (Outcome.unauthorized, true)
        else if jsIncludes "rate limit".data e then (Outcome.rateLimited, true)
        else (Outcome.serverError, true)

/-- The default `MAX_TEXT_LENGTH` (`parseInt(process.env.MAX_TEXT_LENGTH
|| '15000')`). -/
def defaultMaxLength : Nat := 15000

end Controller

/-- A string with a non-empty trim is non-empty. -/
theorem jsTrim_ne_nil {t : JSStr} (h : jsTrim t ≠ []) : t ≠ [] := by
  intro ht
  subst ht
  exact h rfl

/-- `Math.round` keeps values of [0, 100] inside [0, 100]. -/
theorem jsRound_bounds (q : ℚ) (h0 : 0 ≤ q) (h1 : q ≤ 100) :
    0 ≤ jsRound q ∧ jsRound q ≤ 100 := by
  constructor
  · exact Int.le_floor.mpr (by push_cast; linarith)
  · have : jsRound q < 101 := Int.floor_lt.mpr (by push_cast; linarith)
    omega

/-- A rounded value of at least 100 stays at least 100. -/
theorem jsRound_ge_100 (q : ℚ) (h : 100 ≤ q) : 100 ≤ jsRound q :=
  Int.le_floor.mpr (by push_cast; linarith)

/-- Evaluation rule for `jsRound` (rational arithmetic does not reduce in
the kernel, so concrete rounds are established through the floor
characterization). -/
theorem jsRound_eq (q : ℚ) (n : ℤ) (h1 : (n : ℚ) ≤ q + 1/2)
    (h2 : q + 1/2 < n + 1) : jsRound q = n := by
  unfold jsRound
  rw [Int.floor_eq_iff]
  constructor
  · exact h1
  · exact_mod_cast h2

theorem confSum_nonneg (l : List Universal.UCorrection)
    (h : ∀ x ∈ l, (0 : ℚ) ≤ x.confidence) : 0 ≤ Universal.confSum l := by
  induction l with
  | nil => simp [Universal.confSum]
  | cons x xs ih =>
    have hx := h x (by simp)
    have hxs := ih (fun y hy => h y (by simp [hy]))
    simp only [Universal.confSum, List.map_cons, List.sum_cons] at *
    linarith

theorem confSum_le (l : List Universal.UCorrection)
    (h : ∀ x ∈ l, x.confidence ≤ 100) :
    Universal.confSum l ≤ 100 * l.length := by
  induction l with
  | nil => simp [Universal.confSum]
  | cons x xs ih =>
    have hx := h x (by simp)
    have hxs := ih (fun y hy => h y (by simp [hy]))
    simp only [Universal.confSum, List.map_cons, List.sum_cons,
      List.length_cons] at *
    push_cast
    ring_nf
    ring_nf at hxs
    linarith

theorem altPieces_flatten (gs : List (Bool × List Char)) :
    ∀ b, (altPieces b gs).flatten = (gs.map Prod.snd).flatten := by
  induction gs with
  | nil => intro b; cases b <;> simp [altPieces]
  | cons p gs ih =>
    intro b
    obtain ⟨pb, g⟩ := p
    cases b <;> cases pb <;> simp [altPieces, ih]

theorem groupRuns_flatten (l : List Char) :
    ((groupRuns l).map Prod.snd).flatten = l := by
  induction l with
  | nil => simp [groupRuns]
  | cons c rest ih =>
    cases h : groupRuns rest with
    | nil =>
      rw [h] at ih
      simp only [List.map_nil, List.flatten_nil] at ih
      simp [groupRuns, h, ← ih]
    | cons p gs =>
      obtain ⟨b, g⟩ := p
      rw [h] at ih
      simp only [List.map_cons, List.flatten_cons] at ih
      by_cases hb : b = isWsChar c
      · simp [groupRuns, h, hb, ih]
      · simp [groupRuns, h, hb, ih]

/-- Splitting with captured separators loses no characters: the pieces
concatenate back to the original string. -/
theorem splitWsKeep_flatten (s : JSStr) : (splitWsKeep s).flatten = s := by
  rw [splitWsKeep, altPieces_flatten, groupRuns_flatten]

/-- Invariant of the lockstep walk: if `pos` is a valid offset of `o` and
the remaining original tokens concatenate to `o.drop pos`, then every
emitted change carries a valid character offset of `o` whose span is the
substring of `o` at that offset. -/
theorem ftcAux_spec (o : JSStr) (ts : List JSStr) :
    ∀ (cs : List JSStr) (pos : Nat), pos ≤ o.length → o.drop pos = ts.flatten →
      ∀ ch ∈ AdvancedHF.ftcAux ts cs pos,
        ch.position + ch.original.length ≤ o.length ∧
        (o.drop ch.position).take ch.original.length = ch.original := by
  induction ts with
  | nil =>
    intro cs pos _ _ ch hch
    cases cs <;> simp [AdvancedHF.ftcAux] at hch
  | cons t ts ih =>
    intro cs pos hpos hdrop ch hch
    cases cs with
    | nil => simp [AdvancedHF.ftcAux] at hch
    | cons c cs =>
      simp only [List.flatten_cons] at hdrop
      have hlen : o.length - pos = t.length + ts.flatten.length := by
        have := congrArg List.length hdrop
        simpa [List.length_drop] using this
      have hbound : pos + t.length ≤ o.length := by omega
      have hdrop2 : o.drop (pos + t.length) = ts.flatten := by
        have h1 : o.drop (pos + t.length) = (o.drop pos).drop t.length := by
          rw [List.drop_drop]
        rw [h1, hdrop, List.drop_left]
      simp only [AdvancedHF.ftcAux, List.mem_append] at hch
      rcases hch with hhead | htail
      · by_cases hne : t ≠ c
        · simp only [if_pos hne, List.mem_singleton] at hhead
          subst hhead
          refine ⟨hbound, ?_⟩
          rw [hdrop, List.take_left]
        · simp [if_neg hne] at hhead
      · exact ih cs (pos + t.length) hbound hdrop2 ch htail

/-- Comparing a token list against itself emits no change. -/
theorem ftcAux_same (ts : List JSStr) : ∀ pos, AdvancedHF.ftcAux ts ts pos = [] := by
  induction ts with
  | nil => intro pos; simp [AdvancedHF.ftcAux]
  | cons t ts ih => intro pos; simp [AdvancedHF.ftcAux, ih]

/-- Comparing a token list against itself records no correction. -/
theorem acAux_same (ts : List JSStr) : ∀ i, Universal.acAux ts ts i = [] := by
  induction ts with
  | nil => intro i; simp [Universal.acAux]
  | cons t ts ih => intro i; simp [Universal.acAux, ih]

/-- When the string starts with a non-whitespace character, the first
piece of `split(/(\s+)/)` is non-empty (it starts with that character). -/
theorem splitWsKeep_cons_nonws (a : Char) (cs : List Char)
    (ha : isWsChar a = false) :
    ∃ g gs, splitWsKeep (a :: cs) = (a :: g) :: gs := by
  unfold splitWsKeep
  cases h : groupRuns cs with
  | nil =>
    refine ⟨[], [], ?_⟩
    simp [groupRuns, h, ha, altPieces]
  | cons p gs =>
    obtain ⟨b, g⟩ := p
    by_cases hb : b = isWsChar a
    · refine ⟨g, altPieces true gs, ?_⟩
      rw [ha] at hb
      simp [groupRuns, h, hb, ha, if_pos, altPieces]
    · refine ⟨[], altPieces true ((b, g) :: gs), ?_⟩
      rw [ha] at hb
      have hbt : b = true := by cases b <;> simp_all
      subst hbt
      simp [groupRuns, h, ha, altPieces]

theorem mem_insertDesc {x e : SmartFree.SEdit} :
    ∀ {l : List SmartFree.SEdit},
      x ∈ SmartFree.insertDesc e l ↔ x = e ∨ x ∈ l := by
  intro l
  induction l with
  | nil => simp [SmartFree.insertDesc]
  | cons f fs ih =>
    by_cases hf : f.start ≤ e.start
    · simp [SmartFree.insertDesc, hf]
    · simp only [SmartFree.insertDesc, if_neg hf, List.mem_cons, ih]
      tauto

theorem insertDesc_pairwise {e : SmartFree.SEdit} {l : List SmartFree.SEdit}
    (h : l.Pairwise (fun a b => b.start ≤ a.start)) :
    (SmartFree.insertDesc e l).Pairwise (fun a b => b.start ≤ a.start) := by
  induction l with
  | nil => simp [SmartFree.insertDesc]
  | cons f fs ih =>
    rcases List.pairwise_cons.mp h with ⟨hf, hfs⟩
    by_cases hfe : f.start ≤ e.start
    · rw [SmartFree.insertDesc, if_pos hfe]
      refine List.pairwise_cons.mpr ⟨?_, h⟩
      intro x hx
      rcases List.mem_cons.mp hx with hx | hx
      · subst hx; exact hfe
      · exact le_trans (hf x hx) hfe
    · rw [SmartFree.insertDesc, if_neg hfe]
      refine List.pairwise_cons.mpr ⟨?_, ih hfs⟩
      intro x hx
      rcases mem_insertDesc.mp hx with hx | hx
      · subst hx; omega
      · exact hf x hx

/-- The JS sort in `processSaplingResponse` yields a list sorted by
descending `start`. -/
theorem sortDesc_pairwise (l : List SmartFree.SEdit) :
    (SmartFree.sortDesc l).Pairwise (fun a b => b.start ≤ a.start) := by
  induction l with
  | nil => simp [SmartFree.sortDesc]
  | cons e es ih => exact insertDesc_pairwise ih

/-- The corrections collected while splicing depend only on the original
text and the applied (non-empty-replacement) edits, in application
order. -/
theorem spApply_snd (o : JSStr) :
    ∀ (l : List SmartFree.SEdit) (cur : JSStr),
      (SmartFree.spApply o cur l).2 =
        (l.filter (fun e => e.replacement ≠ [])).map (SmartFree.corrOf o) := by
  intro l
  induction l with
  | nil => intro cur; simp [SmartFree.spApply]
  | cons e es ih =>
    intro cur
    by_cases he : e.replacement ≠ []
    · simp [SmartFree.spApply, he, ih, List.filter_cons]
    · simp [SmartFree.spApply, he, ih, List.filter_cons]

/-- `split(/\s+/)` never returns an empty token list (JS `split` yields
`[""]` on the empty string). -/
theorem splitWs_ne_nil (s : JSStr) : splitWs s ≠ [] := by
  unfold splitWs
  cases h : groupRuns s with
  | nil => simp [altTokens]
  | cons p gs =>
    obtain ⟨b, g⟩ := p
    cases b <;> simp [altTokens]

/-- `calculateSimilarity` of a text with itself is at least 1 (it exceeds
1 exactly when words repeat, which is what breaks the claimed ≤ 100
confidence bound). -/
theorem calculateSimilarity_self_ge_one (o : JSStr) :
    1 ≤ calculateSimilarity o o := by
  unfold calculateSimilarity
  dsimp only
  set w := splitWs (jsToLower o) with hw
  have hfilter : w.filter (fun x => decide (x ∈ w)) = w := by
    apply List.filter_eq_self.mpr
    intro a ha
    simpa using ha
  have hsub : (w ++ w).dedup ⊆ w := by
    intro x hx
    have := List.dedup_subset (l := w ++ w) hx
    rcases List.mem_append.mp this with h | h <;> exact h
  have hlen : ((w ++ w).dedup).length ≤ w.length :=
    List.Subperm.length_le ((List.nodup_dedup _).subperm hsub)
  have hne : w ≠ [] := by rw [hw]; exact splitWs_ne_nil _
  have hpos : 0 < ((w ++ w).dedup).length := by
    rcases List.exists_mem_of_ne_nil w hne with ⟨x, hx⟩
    have : x ∈ (w ++ w).dedup := by
      rw [List.mem_dedup]
      exact List.mem_append.mpr (Or.inl hx)
    exact List.length_pos.mpr (List.ne_nil_of_mem this)
  rw [hfilter]
  rw [one_le_div (by exact_mod_cast hpos)]
  exact_mod_cast hlen

/-- C2: at original "I happy" and corrected "I am happy" (whitespace word
counts 2 vs 3), the diff code compares tokens positionally:
`findTextChanges` emits the misaligned edit happy→am, and
`analyzeCorrections` emits that edit plus a length-difference marker —
two records, not one coarse Grammar edit spanning from the divergence to
the end of the string. -/
theorem c2_positional_misattribution :
    (AdvancedHF.findTextChanges "I happy".data "I am happy".data).map
        (fun x => (x.original, x.corrected, x.position))
      = [("happy".data, "am".data, 2)]
    ∧ (Universal.analyzeCorrections "i happy".data "i am happy".data).map
        (fun x => (x.original, x.correction, x.position))
      = [("happy".data, "am".data, some 2),
         ("missing words".data, "added words".data, none)] := by
  constructor <;> decide

/-- C3 (amended): a backend candidate equal to the input text is rejected
by `isValidCorrection`, so the orchestrator loop skips it and continues
with the remaining candidates instead of accepting it as a terminal
zero-edit success. -/
theorem c3_verbatim_rejected (text name : JSStr) (rest : List (JSStr × JSStr)) :
    Universal.isValidCorrection text text = false
    ∧ Universal.tryCandidates text ((name, text) :: rest) =
        Universal.tryCandidates text rest := by
  have hvalid : Universal.isValidCorrection text text = false := by
    unfold Universal.isValidCorrection
    by_cases h1 : text = []
    · simp [h1]
    · by_cases h2 : text.length < 3
      · simp [h1, h2]
      · simp [h1, h2]
  refine ⟨hvalid, ?_⟩
  simp [Universal.tryCandidates, hvalid]

/-- C3 (counterexample): with the first backend echoing the input "me
runs" verbatim and a second backend answering "me ran", the orchestrator
does not stop at the echo — it returns the second backend's result, with
one edit, not a zero-edit terminal result from the first. -/
theorem c3_counterexample :
    (Universal.tryCandidates "me runs".data
        [("m1".data, "me runs".data), ("m2".data, "me ran".data)]).correctedText
      = "me ran".data
    ∧ (Universal.tryCandidates "me runs".data
        [("m1".data, "me runs".data), ("m2".data, "me ran".data)]).serviceUsed
      = "m2".data
    ∧ (Universal.tryCandidates "me runs".data
        [("m1".data, "me runs".data), ("m2".data, "me ran".data)]).corrections.length
      = 1 := by
  refine ⟨by decide, by decide, by decide⟩

/-- C8: under an upstream that reports 503 ("model warming up") on every
call, the Advanced service's `queryModel` is still retrying after 2 and
even 50 upstream calls (it recurses with no retry cap), while the
Universal service's `queryModel` gives up after exactly one retry — two
upstream calls — as the claim describes. -/
theorem c8_unbounded_503_retry :
    AdvancedHF.hfQueryModel AdvancedHF.always503 2 0 = none
    ∧ AdvancedHF.hfQueryModel AdvancedHF.always503 50 0 = none
    ∧ Universal.uQueryModel Universal.UpResp2.http503 Universal.UpResp2.http503
        = Except.error "Model still loading after retry".data
    ∧ Universal.uQueryModel Universal.UpResp2.http503
        (Universal.UpResp2.success "ok".data) = Except.ok "ok".data
    ∧ Universal.uQueryCalls Universal.UpResp2.http503 = 2 := by
  refine ⟨rfl, rfl, rfl, rfl, rfl⟩

/-- C9 (amended): `processSaplingResponse` applies the edits with a
non-empty replacement in stable descending-start order (no length
tie-break), and the returned corrections list is the reverse of that
application order. -/
theorem c9_descending_application_reversed (o : JSStr)
    (edits : List SmartFree.SEdit) :
    (SmartFree.appOrder edits).Pairwise (fun a b => b.start ≤ a.start)
    ∧ (SmartFree.processSaplingResponse o edits).corrections
        = ((SmartFree.appOrder edits).map (SmartFree.corrOf o)).reverse := by
  constructor
  · exact (sortDesc_pairwise edits).sublist (List.filter_sublist _)
  · unfold SmartFree.processSaplingResponse SmartFree.appOrder
    dsimp only
    rw [spApply_snd]

/-- C9 (counterexample): for edits at starts 0 and 5 of "ab cd" the
returned corrections are in ascending offset order (["ab", "cd"]),
whereas the spec-modelled adapter returns them in descending application
order (["cd", "ab"]); and for two edits tied at start 0 the code keeps
their received order while the spec sorts the longer first, producing
different corrected texts ("YYc" vs "XYc"). -/
theorem c9_counterexample :
    (SmartFree.processSaplingResponse "ab cd".data
        [⟨0, 2, "AB".data, none, none⟩, ⟨3, 5, "CD".data, none, none⟩]).corrections.map
        (fun x => x.original)
      = ["ab".data, "cd".data]
    ∧ (SmartFree.specProcessSaplingResponse "ab cd".data
        [⟨0, 2, "AB".data, none, none⟩, ⟨3, 5, "CD".data, none, none⟩]).corrections.map
        (fun x => x.original)
      = ["cd".data, "ab".data]
    ∧ (["ab".data, "cd".data] : List JSStr) ≠ ["cd".data, "ab".data]
    ∧ (SmartFree.processSaplingResponse "abc".data
        [⟨0, 1, "X".data, none, none⟩, ⟨0, 2, "YY".data, none, none⟩]).correctedText
      = "YYc".data
    ∧ (SmartFree.specProcessSaplingResponse "abc".data
        [⟨0, 1, "X".data, none, none⟩, ⟨0, 2, "YY".data, none, none⟩]).correctedText
      = "XYc".data
    ∧ ("YYc".data : JSStr) ≠ "XYc".data := by
  refine ⟨by decide, by decide, by decide, by decide, by decide, by decide⟩

/-- C10 (amended): diffing any string against itself yields no edit in
either diff function; on degenerate input, `findTextChanges` of the empty
string against a non-empty string starting with a non-whitespace
character yields exactly one edit. -/
theorem c10_noop_diff (s c : JSStr) (a : Char) (cs : List Char)
    (hc : c = a :: cs) (ha : isWsChar a = false) :
    AdvancedHF.findTextChanges s s = []
    ∧ Universal.analyzeCorrections s s = []
    ∧ AdvancedHF.findTextChanges [] [] = []
    ∧ (AdvancedHF.findTextChanges [] c).length = 1 := by
  refine ⟨?_, ?_, rfl, ?_⟩
  · exact ftcAux_same _ 0
  · unfold Universal.analyzeCorrections
    dsimp only
    rw [acAux_same]
    simp
  · subst hc
    obtain ⟨g, gs, hsplit⟩ := splitWsKeep_cons_nonws a cs ha
    unfold AdvancedHF.findTextChanges
    rw [hsplit]
    have hnil : splitWsKeep ([] : JSStr) = [[]] := rfl
    rw [hnil]
    cases gs <;> simp [AdvancedHF.ftcAux]

/-- C10 (counterexample): `analyzeCorrections` on the degenerate pair
("", "ab") returns an empty edit sequence, not the one coarse edit the
claim requires for unequal strings. -/
theorem c10_counterexample :
    Universal.analyzeCorrections [] "ab".data = []
    ∧ (Universal.analyzeCorrections [] "ab".data).length ≠ 1 := by
  constructor <;> decide

/-- C1: for valid input text (non-empty after trimming, within the
configured maximum) and with every remote backend failing, the
orchestrator still returns a well-formed result equal to the rule-table
correction with `serviceUsed` naming the rule-table fallback, and the
HTTP caller receives a 200 (backend failures are never surfaced as a
non-200 response). -/
theorem c1_orchestrator_fallback_and_200 (cfg : SmartFree.Config)
    (oracle : SmartFree.ServiceKind → Option SmartFree.SFResult) (t : JSStr)
    (htrim : jsTrim t ≠ []) (hlen : t.length ≤ 8000)
    (hs : oracle SmartFree.ServiceKind.sapling = none)
    (hg : oracle SmartFree.ServiceKind.textGears = none)
    (hl : oracle SmartFree.ServiceKind.languageTool = none) :
    SmartFree.correctText cfg oracle t =
      Except.ok { SmartFree.useBasicCorrection t with
                  serviceUsed := some "Basic Correction".data }
    ∧ Controller.statusOf
        (Controller.run Controller.defaultMaxLength AdvancedHF.correctTextAllFail
          (Controller.ReqBody.str t)).1 = 200 := by
  have hne : t ≠ [] := jsTrim_ne_nil htrim
  constructor
  · unfold SmartFree.correctText
    rw [if_neg hne, if_neg (by omega)]
    obtain ⟨b1, b2⟩ := cfg
    cases b1 <;> cases b2 <;>
      simp [SmartFree.entries, hs, hg, hl, SmartFree.sfLoop]
  · have hsvc : AdvancedHF.correctTextAllFail t =
        Except.ok (AdvancedHF.allFailResult t) := by
      unfold AdvancedHF.correctTextAllFail
      rw [if_neg hne, if_neg htrim, if_neg (by omega)]
    simp only [Controller.run]
    rw [if_neg hne, if_neg htrim,
      if_neg (show ¬ Controller.defaultMaxLength < t.length by
        unfold Controller.defaultMaxLength; omega), hsvc]
    rfl

/-- C1 (witness): the concrete text "teh cat" with no API keys and every
remote service failing. -/
theorem c1_witness :
    (jsTrim "teh cat".data ≠ [] ∧ "teh cat".data.length ≤ 8000)
    ∧ (SmartFree.correctText ⟨false, false⟩ (fun _ => none) "teh cat".data =
        Except.ok { SmartFree.useBasicCorrection "teh cat".data with
                    serviceUsed := some "Basic Correction".data }
      ∧ Controller.statusOf
          (Controller.run Controller.defaultMaxLength AdvancedHF.correctTextAllFail
            (Controller.ReqBody.str "teh cat".data)).1 = 200) :=
  ⟨⟨by decide, by decide⟩,
   c1_orchestrator_fallback_and_200 ⟨false, false⟩ (fun _ => none)
     "teh cat".data (by decide) (by decide) rfl rfl rfl⟩

/-- C4 (amended): a result built by `buildResult` has confidence score
exactly 100 when the edit list is empty and the rounded arithmetic mean
of the edits' confidences otherwise, and the score lies in [0, 100]
whenever every edit's confidence does. -/
theorem c4_confidence_is_rounded_mean (o c svc : JSStr)
    (l : List Universal.UCorrection)
    (hconf : ∀ x ∈ l, (0 : ℚ) ≤ x.confidence ∧ x.confidence ≤ 100) :
    (l = [] → (Universal.buildResult o c l svc).analysis.confidenceScore = 100)
    ∧ (l ≠ [] → (Universal.buildResult o c l svc).analysis.confidenceScore
        = jsRound (Universal.confSum l / (l.length : ℚ)))
    ∧ 0 ≤ (Universal.buildResult o c l svc).analysis.confidenceScore
    ∧ (Universal.buildResult o c l svc).analysis.confidenceScore ≤ 100 := by
  have hscore : (Universal.buildResult o c l svc).analysis.confidenceScore
      = if l.length ≠ 0 then jsRound (Universal.confSum l / (l.length : ℚ))
        else 100 := rfl
  by_cases hl : l = []
  · subst hl
    refine ⟨fun _ => rfl, fun h => absurd rfl h, ?_, ?_⟩ <;> rw [hscore] <;> simp
  · have hlen : l.length ≠ 0 := by
      simpa [List.length_eq_zero] using hl
    have hpos : (0 : ℚ) < (l.length : ℚ) := by
      exact_mod_cast Nat.pos_of_ne_zero hlen
    have hmean0 : 0 ≤ Universal.confSum l / (l.length : ℚ) :=
      div_nonneg (confSum_nonneg l (fun x hx => (hconf x hx).1)) (le_of_lt hpos)
    have hmean1 : Universal.confSum l / (l.length : ℚ) ≤ 100 := by
      rw [div_le_iff₀ hpos]
      have := confSum_le l (fun x hx => (hconf x hx).2)
      linarith
    obtain ⟨hb0, hb1⟩ := jsRound_bounds _ hmean0 hmean1
    rw [hscore, if_pos hlen]
    exact ⟨fun h => absurd h hl, fun _ => rfl, hb0, hb1⟩

/-- C4 (witness): a single edit with confidence 75. -/
theorem c4_witness :
    (∀ x ∈ [({ original := "a".data, correction := "b".data,
                category := "Grammar".data, message := "m".data,
                confidence := 75, position := some 0 } : Universal.UCorrection)],
        (0 : ℚ) ≤ x.confidence ∧ x.confidence ≤ 100)
    ∧ (([({ original := "a".data, correction := "b".data,
            category := "Grammar".data, message := "m".data,
            confidence := 75, position := some 0 } : Universal.UCorrection)] = []
          → (Universal.buildResult "a".data "b".data
              [{ original := "a".data, correction := "b".data,
                 category := "Grammar".data, message := "m".data,
                 confidence := 75, position := some 0 }]
              "S".data).analysis.confidenceScore = 100)
      ∧ ([({ original := "a".data, correction := "b".data,
             category := "Grammar".data, message := "m".data,
             confidence := 75, position := some 0 } : Universal.UCorrection)] ≠ []
          → (Universal.buildResult "a".data "b".data
              [{ original := "a".data, correction := "b".data,
                 category := "Grammar".data, message := "m".data,
                 confidence := 75, position := some 0 }]
              "S".data).analysis.confidenceScore
            = jsRound (Universal.confSum
                [{ original := "a".data, correction := "b".data,
                   category := "Grammar".data, message := "m".data,
                   confidence := 75, position := some 0 }]
                / ((1 : Nat) : ℚ)))
      ∧ 0 ≤ (Universal.buildResult "a".data "b".data
              [{ original := "a".data, correction := "b".data,
                 category := "Grammar".data, message := "m".data,
                 confidence := 75, position := some 0 }]
              "S".data).analysis.confidenceScore
      ∧ (Universal.buildResult "a".data "b".data
              [{ original := "a".data, correction := "b".data,
                 category := "Grammar".data, message := "m".data,
                 confidence := 75, position := some 0 }]
              "S".data).analysis.confidenceScore ≤ 100) :=
  ⟨by decide,
   c4_confidence_is_rounded_mean "a".data "b".data "S".data _ (by decide)⟩

/-- C4 (counterexample): with original "a a" and every upstream query
failing, the Advanced service returns a result with an empty edit list
whose confidence score is 170 — above 100 and not equal to 100 — because
the unclamped similarity fallback counts the repeated word twice. -/
theorem c4_counterexample :
    AdvancedHF.correctTextAllFail "a a".data =
      Except.ok (AdvancedHF.allFailResult "a a".data)
    ∧ (AdvancedHF.allFailResult "a a".data).analysis.confidenceScore = 170
    ∧ (AdvancedHF.allFailResult "a a".data).corrections = []
    ∧ ¬((AdvancedHF.allFailResult "a a".data).analysis.confidenceScore ≤ 100) := by
  have hsim : calculateSimilarity "a a".data "a a".data = 2 := by
    unfold calculateSimilarity
    dsimp only
    rw [show ((splitWs (jsToLower "a a".data)).filter
          (fun w => w ∈ splitWs (jsToLower "a a".data))).length = 2 from by decide,
        show ((splitWs (jsToLower "a a".data)
          ++ splitWs (jsToLower "a a".data)).dedup).length = 1 from by decide]
    norm_num
  have hconf : (AdvancedHF.allFailResult "a a".data).analysis.confidenceScore = 170 := by
    show AdvancedHF.calculateConfidenceFallback "a a".data "a a".data = 170
    unfold AdvancedHF.calculateConfidenceFallback
    dsimp only
    rw [hsim, show ("a a".data.length) = 3 from by decide]
    exact jsRound_eq _ 170 (by norm_num) (by norm_num)
  refine ⟨rfl, hconf, by decide, ?_⟩
  rw [hconf]
  decide

/-- Evaluation rule for `calculateSimilarity` from the two decidable
list counts. -/
theorem calculateSimilarity_eval (t1 t2 : JSStr) (a b : Nat)
    (h1 : ((splitWs (jsToLower t1)).filter
        (fun w => w ∈ splitWs (jsToLower t2))).length = a)
    (h2 : ((splitWs (jsToLower t1) ++ splitWs (jsToLower t2)).dedup).length = b) :
    calculateSimilarity t1 t2 = (a : ℚ) / (b : ℚ) := by
  unfold calculateSimilarity
  dsimp only
  rw [h1, h2]

/-- C5: with the configured maximum at most the service's own hard limit
(as the 15000 default is), text of length exactly the maximum is accepted
and the backend is invoked, text one character longer is rejected with a
400 before any backend is invoked, and missing, non-string or
trim-empty text likewise gets a 400 with no backend invocation. -/
theorem c5_validation_boundary (maxLen : Nat) (hm : maxLen ≤ 15000)
    (t u v : JSStr) (ht : t.length = maxLen) (htr : jsTrim t ≠ [])
    (hu : u.length = maxLen + 1) (hv : jsTrim v = []) :
    Controller.run maxLen AdvancedHF.correctTextAllFail (Controller.ReqBody.str t)
      = (Controller.Outcome.ok (AdvancedHF.allFailResult t), true)
    ∧ (Controller.statusOf (Controller.run maxLen AdvancedHF.correctTextAllFail
          (Controller.ReqBody.str u)).1 = 400
      ∧ (Controller.run maxLen AdvancedHF.correctTextAllFail
          (Controller.ReqBody.str u)).2 = false)
    ∧ Controller.run maxLen AdvancedHF.correctTextAllFail Controller.ReqBody.missing
      = (Controller.Outcome.badRequest "Missing text field".data, false)
    ∧ Controller.run maxLen AdvancedHF.correctTextAllFail Controller.ReqBody.notString
      = (Controller.Outcome.badRequest "Invalid text format".data, false)
    ∧ (Controller.statusOf (Controller.run maxLen AdvancedHF.correctTextAllFail
          (Controller.ReqBody.str v)).1 = 400
      ∧ (Controller.run maxLen AdvancedHF.correctTextAllFail
          (Controller.ReqBody.str v)).2 = false) := by
  have hne : t ≠ [] := jsTrim_ne_nil htr
  refine ⟨?_, ?_, rfl, rfl, ?_⟩
  · have hsvc : AdvancedHF.correctTextAllFail t =
        Except.ok (AdvancedHF.allFailResult t) := by
      unfold AdvancedHF.correctTextAllFail
      rw [if_neg hne, if_neg htr, if_neg (by omega)]
    simp only [Controller.run]
    rw [if_neg hne, if_neg htr, if_neg (show ¬ maxLen < t.length by omega), hsvc]
  · have hneu : u ≠ [] := by
      intro h
      rw [h] at hu
      simp at hu
    simp only [Controller.run]
    rw [if_neg hneu]
    by_cases h2 : jsTrim u = []
    · rw [if_pos h2]
      exact ⟨rfl, rfl⟩
    · rw [if_neg h2, if_pos (by omega)]
      exact ⟨rfl, rfl⟩
  · by_cases hv0 : v = []
    · simp only [Controller.run]
      rw [if_pos hv0]
      exact ⟨rfl, rfl⟩
    · simp only [Controller.run]
      rw [if_neg hv0, if_pos hv]
      exact ⟨rfl, rfl⟩

/-- C5 (witness): configured maximum 3 with texts "abc", "abcd" and " ". -/
theorem c5_witness :
    ((3 : Nat) ≤ 15000 ∧ "abc".data.length = 3 ∧ jsTrim "abc".data ≠ []
      ∧ "abcd".data.length = 3 + 1 ∧ jsTrim " ".data = [])
    ∧ (Controller.run 3 AdvancedHF.correctTextAllFail (Controller.ReqBody.str "abc".data)
        = (Controller.Outcome.ok (AdvancedHF.allFailResult "abc".data), true)
      ∧ (Controller.statusOf (Controller.run 3 AdvancedHF.correctTextAllFail
            (Controller.ReqBody.str "abcd".data)).1 = 400
        ∧ (Controller.run 3 AdvancedHF.correctTextAllFail
            (Controller.ReqBody.str "abcd".data)).2 = false)
      ∧ Controller.run 3 AdvancedHF.correctTextAllFail Controller.ReqBody.missing
        = (Controller.Outcome.badRequest "Missing text field".data, false)
      ∧ Controller.run 3 AdvancedHF.correctTextAllFail Controller.ReqBody.notString
        = (Controller.Outcome.badRequest "Invalid text format".data, false)
      ∧ (Controller.statusOf (Controller.run 3 AdvancedHF.correctTextAllFail
            (Controller.ReqBody.str " ".data)).1 = 400
        ∧ (Controller.run 3 AdvancedHF.correctTextAllFail
            (Controller.ReqBody.str " ".data)).2 = false)) :=
  ⟨⟨by decide, by decide, by decide, by decide, by decide⟩,
   c5_validation_boundary 3 (by decide) "abc".data "abcd".data " ".data
     (by decide) (by decide) (by decide) (by decide)⟩

/-- C6 (amended): every change emitted by `findTextChanges` carries a
valid character offset of the original text — `offset + length` is
within the original, and the recorded span is exactly the substring of
the original text at that offset. -/
theorem c6_offsets_are_char_positions (o c : JSStr) (ch : AdvancedHF.TextChange)
    (hm : ch ∈ AdvancedHF.findTextChanges o c) :
    ch.position + ch.original.length ≤ o.length
    ∧ (o.drop ch.position).take ch.original.length = ch.original := by
  refine ftcAux_spec o (splitWsKeep o) (splitWsKeep c) 0 (Nat.zero_le _) ?_ ch hm
  rw [List.drop_zero]
  exact (splitWsKeep_flatten o).symm

/-- C6 (witness): the change "cd"→"xd" at offset 3 of "ab cd". -/
theorem c6_witness :
    ((⟨"cd".data, "xd".data, 3, 4/5⟩ : AdvancedHF.TextChange)
        ∈ AdvancedHF.findTextChanges "ab cd".data "ab xd".data)
    ∧ ((⟨"cd".data, "xd".data, 3, 4/5⟩ : AdvancedHF.TextChange).position
        + (⟨"cd".data, "xd".data, 3, 4/5⟩ : AdvancedHF.TextChange).original.length
        ≤ "ab cd".data.length
      ∧ ("ab cd".data.drop
            (⟨"cd".data, "xd".data, 3, 4/5⟩ : AdvancedHF.TextChange).position).take
          (⟨"cd".data, "xd".data, 3, 4/5⟩ : AdvancedHF.TextChange).original.length
        = (⟨"cd".data, "xd".data, 3, 4/5⟩ : AdvancedHF.TextChange).original) :=
  have hm : (⟨"cd".data, "xd".data, 3, 4/5⟩ : AdvancedHF.TextChange)
      ∈ AdvancedHF.findTextChanges "ab cd".data "ab xd".data :=
    List.mem_singleton.mpr rfl
  ⟨hm, c6_offsets_are_char_positions "ab cd".data "ab xd".data _ hm⟩

/-- C6 (counterexample): `analyzeCorrections` on "aa bb" vs "aa cc"
records position 2 — the token index — for the span "bb", but the
substring of the original at character offset 2 is " b", not "bb", so the
recorded offset is not a character position of the recorded span. -/
theorem c6_counterexample :
    (Universal.analyzeCorrections "aa bb".data "aa cc".data).map
        (fun x => (x.original, x.position)) = [("bb".data, some 2)]
    ∧ ("aa bb".data.drop 2).take 2 ≠ "bb".data := by
  constructor <;> decide

/-- C7 (amended): the Advanced service's quality score is the final clamp
to [0, 100] of the rounded weighted sum — so it always lies in [0, 100] —
and it equals 100 whenever the corrected text is the original text. -/
theorem c7_quality_score_clamped (o c : JSStr) (_ho : o ≠ []) :
    (0 ≤ AdvancedHF.calculateQualityScore o c
      ∧ AdvancedHF.calculateQualityScore o c ≤ 100)
    ∧ AdvancedHF.calculateQualityScore o o = 100 := by
  constructor
  · unfold AdvancedHF.calculateQualityScore
    dsimp only
    exact ⟨le_max_left 0 _, max_le (by norm_num) (min_le_left _ _)⟩
  · unfold AdvancedHF.calculateQualityScore
    dsimp only
    rw [show (1 : ℚ) - abs ((o.length : ℚ) - (o.length : ℚ)) / (o.length : ℚ) = 1
          by simp,
        show (1 : ℚ) - abs (((o.splitOn ' ').length : ℚ)
            - ((o.splitOn ' ').length : ℚ)) / ((o.splitOn ' ').length : ℚ) = 1
          by simp]
    have hsim := calculateSimilarity_self_ge_one o
    have hq : (100 : ℚ) ≤
        (1 * (3/10) + 1 * (3/10) + calculateSimilarity o o * (4/10)) * 100 := by
      have hexp : (1 * (3/10 : ℚ) + 1 * (3/10)
          + calculateSimilarity o o * (4/10)) * 100
          = 60 + calculateSimilarity o o * 40 := by ring
      rw [hexp]
      linarith
    have hr := jsRound_ge_100 _ hq
    rw [min_eq_left hr]
    decide

/-- C7 (witness): the non-empty original "ab" against "xyz". -/
theorem c7_witness :
    ("ab".data ≠ ([] : JSStr))
    ∧ ((0 ≤ AdvancedHF.calculateQualityScore "ab".data "xyz".data
        ∧ AdvancedHF.calculateQualityScore "ab".data "xyz".data ≤ 100)
      ∧ AdvancedHF.calculateQualityScore "ab".data "ab".data = 100) :=
  ⟨by decide, c7_quality_score_clamped "ab".data "xyz".data (by decide)⟩

/-- C7 (counterexample): at ("a a", "a a b") the code's score is 65 while
the spec formula gives 45 (the code's similarity counts the duplicated
word twice where the spec's Jaccard of word sets does not), and at
("a", "a a a a a a a") the code's score is 0 while the spec formula gives
40 (the code leaves the consistency terms unclamped and only clamps the
final sum). -/
theorem c7_counterexample :
    AdvancedHF.calculateQualityScore "a a".data "a a b".data = 65
    ∧ AdvancedHF.specQualityScore "a a".data "a a b".data = 45
    ∧ AdvancedHF.calculateQualityScore "a".data "a a a a a a a".data = 0
    ∧ AdvancedHF.specQualityScore "a".data "a a a a a a a".data = 40
    ∧ (65 : ℤ) ≠ 45 ∧ (0 : ℤ) ≠ 40 := by
  have hsim1 : calculateSimilarity "a a".data "a a b".data = 1 := by
    rw [calculateSimilarity_eval "a a".data "a a b".data 2 2 (by decide) (by decide)]
    norm_num
  have hsim2 : calculateSimilarity "a".data "a a a a a a a".data = 1 := by
    rw [calculateSimilarity_eval "a".data "a a a a a a a".data 1 1
      (by decide) (by decide)]
    norm_num
  refine ⟨?_, ?_, ?_, ?_, by decide, by decide⟩
  · unfold AdvancedHF.calculateQualityScore
    dsimp only
    rw [hsim1, show ("a a b".data.length) = 5 from by decide,
      show ("a a".data.length) = 3 from by decide,
      show (("a a b".data.splitOn ' ').length) = 3 from by decide,
      show (("a a".data.splitOn ' ').length) = 2 from by decide]
    push_cast
    norm_num [jsRound]
  · unfold AdvancedHF.specQualityScore
    dsimp only
    rw [show ("a a b".data.length) = 5 from by decide,
      show ("a a".data.length) = 3 from by decide,
      show ((splitWs (jsToLower "a a b".data)).length) = 3 from by decide,
      show ((splitWs (jsToLower "a a".data)).length) = 2 from by decide,
      show (((splitWs (jsToLower "a a".data)).dedup.filter
          (fun w => w ∈ (splitWs (jsToLower "a a b".data)).dedup)).length) = 1
        from by decide,
      show ((((splitWs (jsToLower "a a".data)).dedup
          ++ (splitWs (jsToLower "a a b".data)).dedup).dedup).length) = 2
        from by decide]
    push_cast
    norm_num [jsRound]
  · unfold AdvancedHF.calculateQualityScore
    dsimp only
    rw [hsim2, show ("a a a a a a a".data.length) = 13 from by decide,
      show ("a".data.length) = 1 from by decide,
      show (("a a a a a a a".data.splitOn ' ').length) = 7 from by decide,
      show (("a".data.splitOn ' ').length) = 1 from by decide]
    push_cast
    norm_num [jsRound]
  · unfold AdvancedHF.specQualityScore
    dsimp only
    rw [show ("a a a a a a a".data.length) = 13 from by decide,
      show ("a".data.length) = 1 from by decide,
      show ((splitWs (jsToLower "a a a a a a a".data)).length) = 7 from by decide,
      show ((splitWs (jsToLower "a".data)).length) = 1 from by decide,
      show (((splitWs (jsToLower "a".data)).dedup.filter
          (fun w => w ∈ (splitWs (jsToLower "a a a a a a a".data)).dedup)).length) = 1
        from by decide,
      show ((((splitWs (jsToLower "a".data)).dedup
          ++ (splitWs (jsToLower "a a a a a a a".data)).dedup).dedup).length) = 1
        from by decide]
    push_cast
    norm_num [jsRound]

/-- C10 (witness): "x y" diffed against itself, and "" against "ab". -/
theorem c10_witness :
    ("ab".data = 'a' :: "b".data ∧ isWsChar 'a' = false)
    ∧ (AdvancedHF.findTextChanges "x y".data "x y".data = []
      ∧ Universal.analyzeCorrections "x y".data "x y".data = []
      ∧ AdvancedHF.findTextChanges [] [] = []
      ∧ (AdvancedHF.findTextChanges [] "ab".data).length = 1) :=
  ⟨⟨rfl, by decide⟩,
   c10_noop_diff "x y".data "ab".data 'a' "b".data rfl (by decide)⟩
